import Mathlib

/-!
Verification of `Graph/ExtendPath.h` (path-extension and branch-classification
engine). The C++ templates are shallowly embedded over a concrete vertex type
`Nat`: the boost graph capability becomes a pair of edge-enumeration functions,
`Path` becomes a `List Nat` (double-ended: cons at the front, append at the
back), and the `unordered_set` of visited vertices becomes a `List Nat` with
idempotent insertion. Nullable out-parameters (`successor`, `predecessor`,
`vNext`) are modelled as an `Option Nat` tracking the value written through the
pointer, `none` meaning the pointer target was never written (i.e. the C++
variable stays uninitialized); an explicit `undef` argument stands for the
indeterminate value such an uninitialized variable holds when it is read.
-/

/-- The result of attempting to extend a path (`PathExtensionResult` in
`ExtendPath.h`). -/
inductive PathExtensionResult where
  | DEAD_END
  | BRANCHING_POINT
  | CYCLE
  | LENGTH_LIMIT
  | EXTENDED_TO_DEAD_END
  | EXTENDED_TO_BRANCHING_POINT
  | EXTENDED_TO_CYCLE
  | EXTENDED_TO_LENGTH_LIMIT
  deriving DecidableEq

export PathExtensionResult (DEAD_END BRANCHING_POINT CYCLE LENGTH_LIMIT
  EXTENDED_TO_DEAD_END EXTENDED_TO_BRANCHING_POINT EXTENDED_TO_CYCLE
  EXTENDED_TO_LENGTH_LIMIT)

/-- `pathExtended` from `ExtendPath.h`: true if the result code indicates that
the path was successfully extended by one or more nodes. -/
def pathExtended : PathExtensionResult → Bool
  | DEAD_END => false
  | BRANCHING_POINT => false
  | CYCLE => false
  | LENGTH_LIMIT => false
  | _ => true

/-- The result of attempting to extend a path by a single neighbouring vertex
(`SingleExtensionResult` in `ExtendPath.h`). -/
inductive SingleExtensionResult where
  | SE_DEAD_END
  | SE_BRANCHING_POINT
  | SE_EXTENDED
  deriving DecidableEq

export SingleExtensionResult (SE_DEAD_END SE_BRANCHING_POINT SE_EXTENDED)

/-- Modelled from the spec: `Direction` (declared in the headers outside this
compilation unit) — controls whether out-edges or in-edges are traversed. -/
inductive Direction where
  | FORWARD
  | REVERSE
  deriving DecidableEq

export Direction (FORWARD REVERSE)

/-- Modelled from the spec: `NO_LIMIT` (declared in `Graph/Path.h`, outside
this compilation unit) is the sentinel `unsigned` value meaning "unbounded",
i.e. `UINT_MAX`. -/
def NO_LIMIT : Nat := 4294967295

/-- The boost graph capability consumed by `ExtendPath.h`: enumerate the
outgoing edges of a vertex (each yielding its target) and the incoming edges
(each yielding its source), in the graph's deterministic edge order. -/
structure Graph where
  outEdges : Nat → List Nat
  inEdges : Nat → List Nat

/-- The neighbour list traversed in direction `dir`: targets of out-edges for
`FORWARD`, sources of in-edges for `REVERSE`. -/
def nbrs (g : Graph) (dir : Direction) (u : Nat) : List Nat :=
  match dir with
  | FORWARD => g.outEdges u
  | REVERSE => g.inEdges u

/-- `unordered_set::insert`: a no-op when the element is already present. -/
def insertV (u : Nat) (s : List Nat) : List Nat :=
  if u ∈ s then s else u :: s

/-- The neighbour loop of the recursive `lookAhead` (lines 123-142): iterate
over the neighbours, skip those already visited, recurse into the rest via
`f` (the depth-limited search one level deeper), short-circuiting on success
and threading the mutated visited set through the siblings. -/
def lookAheadList (f : Nat → List Nat → Bool × List Nat) :
    List Nat → List Nat → Bool × List Nat
  | [], visited => (false, visited)
  | v :: vs, visited =>
    if v ∈ visited then lookAheadList f vs visited
    else
      match f v visited with
      | (true, visited1) => (true, visited1)
      | (false, visited1) => lookAheadList f vs visited1

/-- The recursive `lookAhead` (lines 105-145). The C++ carries the pair
`(depth, depthLimit)` and stops when `depth == depthLimit`; since `depth` only
ever increases by one per recursive call, we carry the single counter
`remaining = depthLimit - depth` instead (structural recursion), stopping at
`remaining = 0` and recursing at `remaining - 1`. The visited set is inserted
into first, exactly as in the C++. -/
def lookAheadGo (g : Graph) (dir : Direction) (remaining : Nat) :
    Nat → List Nat → Bool × List Nat :=
  Nat.rec (motive := fun _ => Nat → List Nat → Bool × List Nat)
    (fun u visited => (true, insertV u visited))
    (fun _rem ih u visited => lookAheadList ih (nbrs g dir u) (insertV u visited))
    remaining

/-- The public `lookAhead` wrapper (lines 159-167): start a bounded DFS from
`start` with a fresh probe-local visited set and initial depth 0. -/
def lookAhead (start : Nat) (dir : Direction) (depth : Nat) (g : Graph) : Bool :=
  (lookAheadGo g dir depth start []).fst

/-- The "test for 2 or more branches" loop shared by `getSuccessor`
(lines 259-275) and `getPredecessor` (lines 323-338): walk the remaining
neighbours with the running `trueBranches` count and the value last written
through the `successor`/`predecessor` pointer (`cand`; `none` = never
written). On a passing neighbour the count is incremented first; if it has
reached 2 the function returns `SE_BRANCHING_POINT` without touching the
pointer, otherwise the pointer is set to that neighbour. After the loop the
count selects the result. -/
def classifyRest (g : Graph) (dir : Direction) (trimLen : Nat) :
    List Nat → Nat → Option Nat → SingleExtensionResult × Option Nat
  | [], trueBranches, cand =>
    if trueBranches = 0 then (SE_DEAD_END, cand)
    else if trueBranches = 1 then (SE_EXTENDED, cand)
    else (SE_BRANCHING_POINT, cand)
  | v :: vs, trueBranches, cand =>
    if lookAhead v dir trimLen g then
      if trueBranches + 1 ≥ 2 then (SE_BRANCHING_POINT, cand)
      else classifyRest g dir trimLen vs (trueBranches + 1) (some v)
    else classifyRest g dir trimLen vs trueBranches cand

/-- `getSuccessor` (lines 230-276). The second component is the value written
through the `successor` out-parameter: `some n` if `*successor = n` was the
last assignment, `none` if no assignment was executed (so the caller's
variable stays uninitialized). Note that when the first edge's neighbour
passes the `lookAhead` filter, only the count is incremented (line 257-258);
the pointer assignment exists only inside the loop over the remaining edges. -/
def getSuccessor (v : Nat) (g : Graph) (trimLen : Nat) :
    SingleExtensionResult × Option Nat :=
  match g.outEdges v with
  | [] => (SE_DEAD_END, none)
  | neighbour1 :: rest =>
    match rest with
    | [] => (SE_EXTENDED, some neighbour1)
    | _ :: _ =>
      let n0 := if lookAhead neighbour1 FORWARD trimLen g then 1 else 0
      classifyRest g FORWARD trimLen rest n0 none

/-- `getPredecessor` (lines 294-339), the mirror image of `getSuccessor` over
incoming edges and `REVERSE` look-ahead. -/
def getPredecessor (v : Nat) (g : Graph) (trimLen : Nat) :
    SingleExtensionResult × Option Nat :=
  match g.inEdges v with
  | [] => (SE_DEAD_END, none)
  | neighbour1 :: rest =>
    match rest with
    | [] => (SE_EXTENDED, some neighbour1)
    | _ :: _ =>
      let n0 := if lookAhead neighbour1 REVERSE trimLen g then 1 else 0
      classifyRest g REVERSE trimLen rest n0 none

/-- `getSingleVertexExtension` (lines 358-391): first classify the side
opposite the extension direction with a NULL pointer (only the result code is
used); on `SE_BRANCHING_POINT` return immediately (the `vNext` variable is
left unwritten, hence `none`); otherwise classify the side matching the
extension direction with `&vNext` and return its code together with the value
written to `vNext`. -/
def getSingleVertexExtension (v : Nat) (dir : Direction) (g : Graph)
    (trimLen : Nat) : SingleExtensionResult × Option Nat :=
  let r1 := match dir with
    | FORWARD => (getPredecessor v g trimLen).fst
    | REVERSE => (getSuccessor v g trimLen).fst
  if r1 = SE_BRANCHING_POINT then (SE_BRANCHING_POINT, none)
  else
    match dir with
    | FORWARD => getSuccessor v g trimLen
    | REVERSE => getPredecessor v g trimLen

/-- The frontier vertex of the path in direction `dir`: `path.back()` for
`FORWARD`, `path.front()` for `REVERSE`. The default value on the empty path
is irrelevant: `extendPath` asserts a non-empty path, and inside the loop the
path only grows. -/
def frontierV (dir : Direction) (path : List Nat) : Nat :=
  match dir with
  | FORWARD => path.getLastD 0
  | REVERSE => path.headD 0

/-- `path.push_back(v)` for `FORWARD`, `path.push_front(v)` for `REVERSE`. -/
def pushDir (dir : Direction) (v : Nat) (path : List Nat) : List Nat :=
  match dir with
  | FORWARD => path ++ [v]
  | REVERSE => v :: path

/-- `path.pop_back()` for `FORWARD`, `path.pop_front()` for `REVERSE`. -/
def popDir (dir : Direction) (path : List Nat) : List Nat :=
  match dir with
  | FORWARD => path.dropLast
  | REVERSE => path.tail

/-- `extendPathBySingleVertex` (lines 404-426): read the frontier vertex, ask
`getSingleVertexExtension` for the unique extension, and on `SE_EXTENDED`
push the `vNext` variable onto the path. When `getSingleVertexExtension`
returned `SE_EXTENDED` without ever writing `vNext` (possible, see
`getSuccessor`), the C++ pushes the uninitialized variable: that read is
modelled by the `undef` argument. -/
def extendPathBySingleVertex (path : List Nat) (dir : Direction) (g : Graph)
    (trimLen undef : Nat) : SingleExtensionResult × List Nat :=
  let v := frontierV dir path
  match getSingleVertexExtension v dir g trimLen with
  | (SE_EXTENDED, vNext) => (SE_EXTENDED, pushDir dir (vNext.getD undef) path)
  | (result, _) => (result, path)

/-- The while-loop of `extendPath` (lines 460-478), written as structural
recursion on `fuel = maxLen - path.size()`: the loop guard
`path.size() < maxLen` is exactly `fuel > 0`, and a successful extension grows
the path by one, shrinking `fuel` by one. The returned 4-tuple carries the
C++ loop state on exit: `result`, `detectedCycle`, the path and the visited
set. On a successful extension the just-pushed frontier vertex is inserted
into `visited`; if it was already present the insertion is a no-op and
`detectedCycle` becomes true, exiting the loop. -/
def extendPathLoop (dir : Direction) (g : Graph) (trimLen undef : Nat) :
    Nat → List Nat → List Nat →
    SingleExtensionResult × Bool × List Nat × List Nat
  | 0, path, visited => (SE_EXTENDED, false, path, visited)
  | fuel + 1, path, visited =>
    match extendPathBySingleVertex path dir g trimLen undef with
    | (SE_EXTENDED, path1) =>
      let v := frontierV dir path1
      if v ∈ visited then (SE_EXTENDED, true, path1, visited)
      else extendPathLoop dir g trimLen undef fuel path1 (insertV v visited)
    | (result, path1) => (result, false, path1, visited)

/-- The tail of `extendPath` (lines 480-514): roll back the just-added repeat
vertex when a cycle was detected, then choose among the eight result codes by
combining "did the path grow past its length on entry" with the terminal
reason (cycle, dead end, branching point, or length limit). -/
def finishExtend (origPathLen : Nat) (dir : Direction)
    (result : SingleExtensionResult) (detectedCycle : Bool)
    (path1 visited1 : List Nat) : PathExtensionResult × List Nat × List Nat :=
  let path2 := if detectedCycle then popDir dir path1 else path1
  if origPathLen < path2.length then
    if detectedCycle then (EXTENDED_TO_CYCLE, path2, visited1)
    else if result = SE_DEAD_END then (EXTENDED_TO_DEAD_END, path2, visited1)
    else if result = SE_BRANCHING_POINT then
      (EXTENDED_TO_BRANCHING_POINT, path2, visited1)
    else (EXTENDED_TO_LENGTH_LIMIT, path2, visited1)
  else
    if detectedCycle then (CYCLE, path2, visited1)
    else if result = SE_DEAD_END then (DEAD_END, path2, visited1)
    else if result = SE_BRANCHING_POINT then (BRANCHING_POINT, path2, visited1)
    else (LENGTH_LIMIT, path2, visited1)

/-- The core `extendPath` overload (lines 441-515): early `LENGTH_LIMIT`
return when `path.size() != NO_LIMIT && path.size() >= maxLen`; otherwise run
the extension loop and dispatch on its exit state via `finishExtend`. Returns
the result code together with the final path and visited set (both are
reference parameters in the C++). -/
def extendPath (path : List Nat) (dir : Direction) (g : Graph)
    (visited : List Nat) (trimLen maxLen undef : Nat) :
    PathExtensionResult × List Nat × List Nat :=
  if path.length ≠ NO_LIMIT ∧ maxLen ≤ path.length then
    (LENGTH_LIMIT, path, visited)
  else
    match extendPathLoop dir g trimLen undef (maxLen - path.length) path
        visited with
    | (result, detectedCycle, path1, visited1) =>
      finishExtend path.length dir result detectedCycle path1 visited1

/-- The convenience `extendPath` overload (lines 528-541): build a visited set
seeded with every vertex of the path, then delegate to the core routine. -/
def extendPathSeedVisited (path : List Nat) (dir : Direction) (g : Graph)
    (trimLen maxLen undef : Nat) : PathExtensionResult × List Nat × List Nat :=
  extendPath path dir g (path.foldl (fun s v => insertV v s) []) trimLen maxLen
    undef

/-! ### Concrete graphs used as witnesses and failing inputs -/

/-- Linear chain 0 → 1 → 2 → 3. -/
def chainGraph : Graph :=
  ⟨fun v => if v = 0 then [1] else if v = 1 then [2] else if v = 2 then [3]
      else [],
   fun v => if v = 1 then [0] else if v = 2 then [1] else if v = 3 then [2]
      else []⟩

/-- Cycle 0 → 1 → 2 → 0. -/
def cycleGraph : Graph :=
  ⟨fun v => if v = 0 then [1] else if v = 1 then [2] else if v = 2 then [0]
      else [],
   fun v => if v = 0 then [2] else if v = 1 then [0] else if v = 2 then [1]
      else []⟩

/-- A single self loop at vertex 0. -/
def selfLoopGraph : Graph :=
  ⟨fun v => if v = 0 then [0] else [], fun v => if v = 0 then [0] else []⟩

/-- Vertex 0 has out-edges to 1 (which continues to 3) and to 2 (a dead end):
with `trimLen = 1`, the first edge's neighbour 1 is the only true branch. -/
def spurGraph : Graph :=
  ⟨fun v => if v = 0 then [1, 2] else if v = 1 then [3] else [],
   fun v => if v = 1 then [0] else if v = 2 then [0] else if v = 3 then [1]
      else []⟩

/-- Vertex 0 has two incoming edges (from 1 and 2) and one outgoing edge
(to 3): a branching point on the incoming side. -/
def inBranchGraph : Graph :=
  ⟨fun v => if v = 0 then [3] else [],
   fun v => if v = 0 then [1, 2] else []⟩

/-- Vertex 0 has exactly one out-edge and one in-edge, both to/from the
isolated dead-end vertex 1. -/
def loneEdgeGraph : Graph :=
  ⟨fun v => if v = 0 then [1] else [], fun v => if v = 0 then [1] else []⟩

/-! ### Equations and lemmas for the reachability prober -/

lemma lookAheadGo_zero (g : Graph) (dir : Direction) (u : Nat)
    (visited : List Nat) :
    lookAheadGo g dir 0 u visited = (true, insertV u visited) := rfl

lemma lookAheadGo_succ (g : Graph) (dir : Direction) (rem u : Nat)
    (visited : List Nat) :
    lookAheadGo g dir (rem + 1) u visited =
      lookAheadList (lookAheadGo g dir rem) (nbrs g dir u) (insertV u visited) :=
  rfl

/-- If a pointwise weaker search fails on a neighbour list (returning a final
visited set), the stronger search fails there too, with the same final
visited set: failure means the depth limit was never reached, so both
searches explore the same vertices in the same order. -/
lemma lookAheadList_false_mono {f f1 : Nat → List Nat → Bool × List Nat}
    (hf : ∀ v vis w, f1 v vis = (false, w) → f v vis = (false, w)) :
    ∀ l vis w, lookAheadList f1 l vis = (false, w) →
      lookAheadList f l vis = (false, w) := by
  intro l
  induction l with
  | nil => intro vis w h; exact h
  | cons v vs ih =>
    intro vis w h
    by_cases hv : v ∈ vis
    · simp only [lookAheadList, if_pos hv] at h ⊢
      exact ih vis w h
    · simp only [lookAheadList, if_neg hv] at h ⊢
      rcases h1 : f1 v vis with ⟨b, w1⟩
      rw [h1] at h
      cases b with
      | true => simp at h
      | false =>
        simp only at h
        rw [hf v vis w1 h1]
        exact ih w1 w h

/-- If the bounded DFS fails at depth limit `d1`, it also fails at every
larger limit `d`, with the same final visited set. -/
lemma lookAheadGo_false_mono (g : Graph) (dir : Direction) :
    ∀ d1 d : Nat, d1 ≤ d → ∀ u vis w,
      lookAheadGo g dir d1 u vis = (false, w) →
      lookAheadGo g dir d u vis = (false, w) := by
  intro d1
  induction d1 with
  | zero =>
    intro d _ u vis w h
    rw [lookAheadGo_zero] at h
    simp at h
  | succ s ih =>
    intro d hle u vis w h
    cases d with
    | zero => exact absurd hle (by omega)
    | succ t =>
      have hst : s ≤ t := by omega
      rw [lookAheadGo_succ] at h ⊢
      exact lookAheadList_false_mono
        (fun v vis1 w1 h1 => ih t hst v vis1 w1 h1) _ _ w h

/-- C5: monotonicity of the reachability probe — for every vertex `v`,
direction `dir`, graph `g` and depth limits `d1 ≤ d`, if
`lookAhead(v, dir, d, g)` returns true then `lookAhead(v, dir, d1, g)`
returns true. -/
theorem lookAhead_monotone (v : Nat) (dir : Direction) (g : Graph)
    (d d1 : Nat) (hle : d1 ≤ d) (h : lookAhead v dir d g = true) :
    lookAhead v dir d1 g = true := by
  rcases hGo : lookAheadGo g dir d1 v [] with ⟨b, w⟩
  cases b with
  | true => unfold lookAhead; rw [hGo]
  | false =>
    have h2 := lookAheadGo_false_mono g dir d1 d hle v [] w hGo
    unfold lookAhead at h
    rw [h2] at h
    simp at h

/-- C9: the probe with depth limit zero succeeds for every vertex, direction
and graph: `lookAhead(v, dir, 0, g)` returns true. -/
theorem lookAhead_depth_zero (v : Nat) (dir : Direction) (g : Graph) :
    lookAhead v dir 0 g = true := rfl

/-- Witness for `lookAhead_monotone`: in the chain 0 → 1 → 2 → 3 the probe
from 0 succeeds at depth limit 3, hence also at the smaller limit 1. -/
theorem lookAhead_monotone_witness :
    (1 ≤ 3 ∧ lookAhead 0 FORWARD 3 chainGraph = true) ∧
      lookAhead 0 FORWARD 1 chainGraph = true :=
  ⟨⟨by decide, by decide⟩,
    lookAhead_monotone 0 FORWARD chainGraph 3 1 (by decide) (by decide)⟩

/-! ### Branch classifier theorems -/

/-- C6: with exactly one raw out-edge (resp. in-edge), `getSuccessor`
(resp. `getPredecessor`) returns `SE_EXTENDED` with that sole neighbour
written to the out-parameter, for every graph and every `trimLen` —
regardless of that neighbour's own reach. -/
theorem single_raw_edge_always_extended (g : Graph) (v n trimLen : Nat) :
    (g.outEdges v = [n] → getSuccessor v g trimLen = (SE_EXTENDED, some n)) ∧
      (g.inEdges v = [n] →
        getPredecessor v g trimLen = (SE_EXTENDED, some n)) := by
  constructor
  · intro h
    simp [getSuccessor, h]
  · intro h
    simp [getPredecessor, h]

/-- Witness for `single_raw_edge_always_extended`: vertex 0 of
`loneEdgeGraph` has the single out-edge (and in-edge) to the dead-end
vertex 1, whose own reach is 0 < trimLen = 5, and the classification is
still `SE_EXTENDED` with candidate 1. -/
theorem single_raw_edge_always_extended_witness :
    (loneEdgeGraph.outEdges 0 = [1] ∧
        getSuccessor 0 loneEdgeGraph 5 = (SE_EXTENDED, some 1)) ∧
      loneEdgeGraph.inEdges 0 = [1] ∧
        getPredecessor 0 loneEdgeGraph 5 = (SE_EXTENDED, some 1) :=
  ⟨⟨by decide,
      (single_raw_edge_always_extended loneEdgeGraph 0 1 5).1 (by decide)⟩,
    by decide,
    (single_raw_edge_always_extended loneEdgeGraph 0 1 5).2 (by decide)⟩

/-- C1 evidence: vertex 0 of `spurGraph` has two raw out-edges, to 1 and 2;
with `trimLen = 1` the first edge's neighbour 1 is the unique neighbour
passing the `lookAhead` filter; `getSuccessor` returns `SE_EXTENDED` but the
`successor` out-parameter is never written (`none`): the assignment to the
pointer exists only in the loop over the second and later edges, so the
caller's variable keeps its uninitialized value — contradicting both the
claim and the function's own doc comment. `extendPathBySingleVertex` then
pushes that indeterminate value (`undef = 77`) onto the path. -/
theorem getSuccessor_first_edge_candidate_unassigned :
    spurGraph.outEdges 0 = [1, 2] ∧
      lookAhead 1 FORWARD 1 spurGraph = true ∧
      lookAhead 2 FORWARD 1 spurGraph = false ∧
      getSuccessor 0 spurGraph 1 = (SE_EXTENDED, none) ∧
      extendPathBySingleVertex [0] FORWARD spurGraph 1 77 =
        (SE_EXTENDED, [0, 77]) := by
  decide

/-- C2: `getSingleVertexExtension` classifies the side opposite `dir` first
(incoming via `getPredecessor` for `FORWARD`, outgoing via `getSuccessor` for
`REVERSE`); if that classification is `SE_BRANCHING_POINT` the function
returns `SE_BRANCHING_POINT` with `vNext` unwritten, and otherwise it returns
exactly the classification and candidate produced on the dir-matching side. -/
theorem getSingleVertexExtension_upstream_first (v : Nat) (g : Graph)
    (trimLen : Nat) :
    ((getPredecessor v g trimLen).fst = SE_BRANCHING_POINT →
        getSingleVertexExtension v FORWARD g trimLen =
          (SE_BRANCHING_POINT, none)) ∧
      ((getPredecessor v g trimLen).fst ≠ SE_BRANCHING_POINT →
        getSingleVertexExtension v FORWARD g trimLen =
          getSuccessor v g trimLen) ∧
      ((getSuccessor v g trimLen).fst = SE_BRANCHING_POINT →
        getSingleVertexExtension v REVERSE g trimLen =
          (SE_BRANCHING_POINT, none)) ∧
      ((getSuccessor v g trimLen).fst ≠ SE_BRANCHING_POINT →
        getSingleVertexExtension v REVERSE g trimLen =
          getPredecessor v g trimLen) := by
  refine ⟨fun h => ?_, fun h => ?_, fun h => ?_, fun h => ?_⟩ <;>
    simp [getSingleVertexExtension, h]

/-- Witness for `getSingleVertexExtension_upstream_first`: in
`inBranchGraph`, vertex 0 has a branching incoming side, so the `FORWARD`
extension is cut off before the (simple) outgoing side is consulted; in
`chainGraph`, vertex 1 has the single predecessor 0, so the `FORWARD`
extension returns the outgoing classification (candidate 2) verbatim. -/
theorem getSingleVertexExtension_upstream_first_witness :
    ((getPredecessor 0 inBranchGraph 0).fst = SE_BRANCHING_POINT ∧
        getSingleVertexExtension 0 FORWARD inBranchGraph 0 =
          (SE_BRANCHING_POINT, none)) ∧
      (getPredecessor 1 chainGraph 0).fst ≠ SE_BRANCHING_POINT ∧
        getSingleVertexExtension 1 FORWARD chainGraph 0 =
          getSuccessor 1 chainGraph 0 :=
  ⟨⟨by decide,
      (getSingleVertexExtension_upstream_first 0 inBranchGraph 0).1
        (by decide)⟩,
    by decide,
    (getSingleVertexExtension_upstream_first 1 chainGraph 0).2.1
      (by decide)⟩

/-! ### Helper lemmas for the path extender -/

lemma mem_insertV {x u : Nat} {s : List Nat} :
    x ∈ insertV u s ↔ x = u ∨ x ∈ s := by
  unfold insertV
  by_cases h : u ∈ s
  · simp only [if_pos h]
    constructor
    · exact fun hx => Or.inr hx
    · rintro (rfl | hx)
      · exact h
      · exact hx
  · simp [if_neg h]

lemma pushDir_length (dir : Direction) (v : Nat) (p : List Nat) :
    (pushDir dir v p).length = p.length + 1 := by
  cases dir <;> simp [pushDir]

lemma mem_pushDir {x : Nat} (dir : Direction) (v : Nat) (p : List Nat) :
    x ∈ pushDir dir v p ↔ x = v ∨ x ∈ p := by
  cases dir <;> simp [pushDir, or_comm]

lemma popDir_pushDir (dir : Direction) (v : Nat) (p : List Nat) :
    popDir dir (pushDir dir v p) = p := by
  cases dir <;> simp [popDir, pushDir]

lemma frontierV_pushDir (dir : Direction) (v : Nat) (p : List Nat) :
    frontierV dir (pushDir dir v p) = v := by
  cases dir <;> simp [frontierV, pushDir]

lemma popDir_length (dir : Direction) (p : List Nat) :
    (popDir dir p).length = p.length - 1 := by
  cases dir <;> simp [popDir]

lemma mem_popDir {x : Nat} (dir : Direction) (p : List Nat)
    (h : x ∈ popDir dir p) : x ∈ p := by
  cases dir with
  | FORWARD => exact (List.dropLast_sublist p).subset h
  | REVERSE => exact (List.tail_sublist p).subset h

lemma pushDir_nodup (dir : Direction) {v : Nat} {p : List Nat}
    (hv : v ∉ p) (hp : p.Nodup) : (pushDir dir v p).Nodup := by
  cases dir <;> simp [pushDir, List.nodup_append, hp, hv]

/-- `extendPathBySingleVertex` either pushes one vertex onto the path in
direction `dir` and reports `SE_EXTENDED`, or leaves the path untouched and
reports `SE_DEAD_END` or `SE_BRANCHING_POINT`. -/
lemma extendPathBySingleVertex_cases (path : List Nat) (dir : Direction)
    (g : Graph) (trimLen undef : Nat) :
    (∃ v, extendPathBySingleVertex path dir g trimLen undef =
        (SE_EXTENDED, pushDir dir v path)) ∨
      extendPathBySingleVertex path dir g trimLen undef =
        (SE_DEAD_END, path) ∨
      extendPathBySingleVertex path dir g trimLen undef =
        (SE_BRANCHING_POINT, path) := by
  unfold extendPathBySingleVertex
  rcases h : getSingleVertexExtension (frontierV dir path) dir g trimLen with
    ⟨c, o⟩
  cases c with
  | SE_DEAD_END => right; left; simp [h]
  | SE_BRANCHING_POINT => right; right; simp [h]
  | SE_EXTENDED => exact Or.inl ⟨o.getD undef, by simp [h]⟩

/-- The extension loop never shrinks the path, and when it exits with a
detected cycle the path has grown by at least one vertex (the repeat that the
caller will roll back). -/
lemma extendPathLoop_length (dir : Direction) (g : Graph)
    (trimLen undef : Nat) :
    ∀ fuel path visited,
      path.length ≤
        (extendPathLoop dir g trimLen undef fuel path
          visited).snd.snd.fst.length ∧
      ((extendPathLoop dir g trimLen undef fuel path visited).snd.fst = true →
        path.length + 1 ≤
          (extendPathLoop dir g trimLen undef fuel path
            visited).snd.snd.fst.length) := by
  intro fuel
  induction fuel with
  | zero => intro path visited; simp [extendPathLoop]
  | succ n ih =>
    intro path visited
    rcases extendPathBySingleVertex_cases path dir g trimLen undef with
      ⟨w, heq⟩ | heq | heq
    · simp only [extendPathLoop, heq, frontierV_pushDir]
      by_cases hw : w ∈ visited
      · simp [hw, pushDir_length]
      · simp only [if_neg hw]
        have h2 := ih (pushDir dir w path) (insertV w visited)
        rw [pushDir_length] at h2
        exact ⟨by omega, fun _ => h2.1⟩
    · simp [extendPathLoop, heq]
    · simp [extendPathLoop, heq]

/-- The extension loop re-establishes the visited-set invariant: if every
vertex of the path is in the visited set on entry, every vertex of the exit
path is in the exit visited set. -/
lemma extendPathLoop_visited (dir : Direction) (g : Graph)
    (trimLen undef : Nat) :
    ∀ fuel path visited, (∀ x ∈ path, x ∈ visited) →
      ∀ x ∈ (extendPathLoop dir g trimLen undef fuel path
          visited).snd.snd.fst,
        x ∈ (extendPathLoop dir g trimLen undef fuel path
          visited).snd.snd.snd := by
  intro fuel
  induction fuel with
  | zero => intro path visited h; simpa [extendPathLoop] using h
  | succ n ih =>
    intro path visited h
    rcases extendPathBySingleVertex_cases path dir g trimLen undef with
      ⟨w, heq⟩ | heq | heq
    · simp only [extendPathLoop, heq, frontierV_pushDir]
      by_cases hw : w ∈ visited
      · simp only [if_pos hw]
        intro x hx
        rcases (mem_pushDir dir w path).mp hx with rfl | hx2
        · exact hw
        · exact h x hx2
      · simp only [if_neg hw]
        apply ih
        intro x hx
        rcases (mem_pushDir dir w path).mp hx with rfl | hx2
        · exact mem_insertV.mpr (Or.inl rfl)
        · exact mem_insertV.mpr (Or.inr (h x hx2))
    · simpa [extendPathLoop, heq] using h
    · simpa [extendPathLoop, heq] using h

/-- If the entry path has no duplicate vertices and the visited set contains
every vertex of the path, then the loop's exit path — after rolling back the
repeat vertex when a cycle was detected — has no duplicate vertices. -/
lemma extendPathLoop_nodup (dir : Direction) (g : Graph)
    (trimLen undef : Nat) :
    ∀ fuel path visited, path.Nodup → (∀ x ∈ path, x ∈ visited) →
      List.Nodup
        (if (extendPathLoop dir g trimLen undef fuel path
              visited).snd.fst = true then
          popDir dir
            (extendPathLoop dir g trimLen undef fuel path visited).snd.snd.fst
        else
          (extendPathLoop dir g trimLen undef fuel path
            visited).snd.snd.fst) := by
  intro fuel
  induction fuel with
  | zero => intro path visited h1 _; simpa [extendPathLoop] using h1
  | succ n ih =>
    intro path visited h1 h2
    rcases extendPathBySingleVertex_cases path dir g trimLen undef with
      ⟨w, heq⟩ | heq | heq
    · simp only [extendPathLoop, heq, frontierV_pushDir]
      by_cases hw : w ∈ visited
      · simp only [if_pos hw]
        simpa [popDir_pushDir] using h1
      · simp only [if_neg hw]
        apply ih
        · exact pushDir_nodup dir (fun hmem => hw (h2 w hmem)) h1
        · intro x hx
          rcases (mem_pushDir dir w path).mp hx with rfl | hx2
          · exact mem_insertV.mpr (Or.inl rfl)
          · exact mem_insertV.mpr (Or.inr (h2 x hx2))
    · simpa [extendPathLoop, heq] using h1
    · simpa [extendPathLoop, heq] using h1

/-- `finishExtend` returns the rolled-back path and the loop's visited set,
whichever of the eight result codes is chosen. -/
lemma finishExtend_snd (origLen : Nat) (dir : Direction)
    (result : SingleExtensionResult) (cyc : Bool) (p1 v1 : List Nat) :
    (finishExtend origLen dir result cyc p1 v1).snd =
      (if cyc then popDir dir p1 else p1, v1) := by
  cases cyc <;> cases result <;> simp [finishExtend] <;> split <;> simp

/-- The result code chosen by `finishExtend` is an extended code exactly when
the final path is longer than the entry length. -/
lemma pathExtended_finishExtend (origLen : Nat) (dir : Direction)
    (result : SingleExtensionResult) (cyc : Bool) (p1 v1 : List Nat) :
    (pathExtended (finishExtend origLen dir result cyc p1 v1).fst = true ↔
      origLen < (finishExtend origLen dir result cyc p1 v1).snd.fst.length) := by
  cases cyc <;> cases result <;> simp [finishExtend] <;> split <;>
    simp_all [pathExtended]

/-! ### Path extender theorems -/

/-- C3: for every call to `extendPath` with a non-empty path, the returned
code is one of the four extended codes (`pathExtended`) if and only if the
path's length on return is strictly greater than its length on entry. -/
theorem extendPath_extended_iff_grew (path : List Nat) (dir : Direction)
    (g : Graph) (visited : List Nat) (trimLen maxLen undef : Nat)
    (hne : path ≠ []) :
    (pathExtended
        (extendPath path dir g visited trimLen maxLen undef).fst = true ↔
      path.length <
        (extendPath path dir g visited trimLen maxLen undef).snd.fst.length) := by
  unfold extendPath
  by_cases hEarly : path.length ≠ NO_LIMIT ∧ maxLen ≤ path.length
  · simp [hEarly, pathExtended]
  · simp only [if_neg hEarly]
    rcases hr : extendPathLoop dir g trimLen undef (maxLen - path.length)
        path visited with ⟨res, cyc, p1, v1⟩
    exact pathExtended_finishExtend path.length dir res cyc p1 v1

/-- Witness for `extendPath_extended_iff_grew`: the chain 0 → 1 → 2 → 3
extended from the seed path `[0]`. -/
theorem extendPath_extended_iff_grew_witness :
    (([0] : List Nat) ≠ []) ∧
      (pathExtended (extendPath [0] FORWARD chainGraph [0] 0 10 99).fst =
          true ↔
        ([0] : List Nat).length <
          (extendPath [0] FORWARD chainGraph [0] 0 10 99).snd.fst.length) :=
  ⟨by decide,
    extendPath_extended_iff_grew [0] FORWARD chainGraph [0] 0 10 99
      (by decide)⟩

/-- C8: `extendPath` never decreases the path length relative to its value on
entry, whatever the result code — including the cycle cases where the
just-added vertex is rolled back. -/
theorem extendPath_length_monotone (path : List Nat) (dir : Direction)
    (g : Graph) (visited : List Nat) (trimLen maxLen undef : Nat)
    (hne : path ≠ []) :
    path.length ≤
      (extendPath path dir g visited trimLen maxLen undef).snd.fst.length := by
  unfold extendPath
  by_cases hEarly : path.length ≠ NO_LIMIT ∧ maxLen ≤ path.length
  · simp [hEarly]
  · simp only [if_neg hEarly]
    rcases hr : extendPathLoop dir g trimLen undef (maxLen - path.length)
        path visited with ⟨res, cyc, p1, v1⟩
    have hlen := extendPathLoop_length dir g trimLen undef
      (maxLen - path.length) path visited
    rw [hr] at hlen
    simp only at hlen
    rw [congrArg Prod.fst (finishExtend_snd path.length dir res cyc p1 v1)]
    cases cyc with
    | false => simpa using hlen.1
    | true =>
      have h2 := hlen.2 rfl
      simp [popDir_length]
      omega

/-- Witness for `extendPath_length_monotone`: the chain extension grows `[0]`
to length 4 ≥ 1. -/
theorem extendPath_length_monotone_witness :
    (([0] : List Nat) ≠ []) ∧
      ([0] : List Nat).length ≤
        (extendPath [0] FORWARD chainGraph [0] 0 10 99).snd.fst.length :=
  ⟨by decide,
    extendPath_length_monotone [0] FORWARD chainGraph [0] 0 10 99 (by decide)⟩

/-- C7: when the path on entry is at least as long as a finite (non-sentinel)
`maxLen`, `extendPath` returns `LENGTH_LIMIT` and leaves the path and the
visited set exactly as they were on entry. -/
theorem extendPath_length_limit_on_entry (path : List Nat) (dir : Direction)
    (g : Graph) (visited : List Nat) (trimLen maxLen undef : Nat)
    (hne : path ≠ []) (hfin : maxLen ≠ NO_LIMIT)
    (hge : maxLen ≤ path.length) :
    extendPath path dir g visited trimLen maxLen undef =
      (LENGTH_LIMIT, path, visited) := by
  unfold extendPath
  by_cases hP : path.length = NO_LIMIT
  · have hEarly : ¬(path.length ≠ NO_LIMIT ∧ maxLen ≤ path.length) := by
      simp [hP]
    simp only [if_neg hEarly]
    rw [Nat.sub_eq_zero_of_le hge]
    simp [extendPathLoop, finishExtend]
  · have hEarly : path.length ≠ NO_LIMIT ∧ maxLen ≤ path.length := ⟨hP, hge⟩
    simp [hEarly]

/-- Witness for `extendPath_length_limit_on_entry`: a path of length 1 with
`maxLen = 1` is returned untouched with `LENGTH_LIMIT`. -/
theorem extendPath_length_limit_on_entry_witness :
    (([5] : List Nat) ≠ [] ∧ (1 : Nat) ≠ NO_LIMIT ∧
        1 ≤ ([5] : List Nat).length) ∧
      extendPath [5] FORWARD chainGraph [] 0 1 99 = (LENGTH_LIMIT, [5], []) :=
  ⟨⟨by decide, by decide, by decide⟩,
    extendPath_length_limit_on_entry [5] FORWARD chainGraph [] 0 1 99
      (by decide) (by decide) (by decide)⟩

/-- C10: the core `extendPath` overload re-establishes the visited-set
invariant — if the visited set contains every vertex of the path on entry, it
contains every vertex of the (possibly grown) returned path on return. -/
theorem extendPath_visited_contains_path (path : List Nat) (dir : Direction)
    (g : Graph) (visited : List Nat) (trimLen maxLen undef : Nat)
    (hne : path ≠ []) (hsub : ∀ x ∈ path, x ∈ visited) :
    ∀ x ∈ (extendPath path dir g visited trimLen maxLen undef).snd.fst,
      x ∈ (extendPath path dir g visited trimLen maxLen undef).snd.snd := by
  unfold extendPath
  by_cases hEarly : path.length ≠ NO_LIMIT ∧ maxLen ≤ path.length
  · simpa [hEarly] using hsub
  · simp only [if_neg hEarly]
    rcases hr : extendPathLoop dir g trimLen undef (maxLen - path.length)
        path visited with ⟨res, cyc, p1, v1⟩
    have hv := extendPathLoop_visited dir g trimLen undef
      (maxLen - path.length) path visited hsub
    rw [hr] at hv
    simp only at hv
    intro x hx
    rw [congrArg Prod.fst (finishExtend_snd path.length dir res cyc p1 v1)]
      at hx
    rw [congrArg Prod.snd (finishExtend_snd path.length dir res cyc p1 v1)]
    cases cyc with
    | false => exact hv x (by simpa using hx)
    | true => exact hv x (mem_popDir dir p1 (by simpa using hx))

/-- Witness for `extendPath_visited_contains_path`: the cycle graph extension
from `[0]` returns path `[0, 1, 2]` and visited set `[2, 1, 0]`. -/
theorem extendPath_visited_contains_path_witness :
    (([0] : List Nat) ≠ [] ∧ ∀ x ∈ ([0] : List Nat), x ∈ ([0] : List Nat)) ∧
      ∀ x ∈ (extendPath [0] FORWARD cycleGraph [0] 0 10 99).snd.fst,
        x ∈ (extendPath [0] FORWARD cycleGraph [0] 0 10 99).snd.snd :=
  ⟨⟨by decide, by decide⟩,
    extendPath_visited_contains_path [0] FORWARD cycleGraph [0] 0 10 99
      (by decide) (by decide)⟩

/-- C4 (as stated) is false: with the self loop 0 → 0, the entry path
`[0, 0]` — non-empty, and every vertex is in the entry visited set `[0]` —
produces the result `CYCLE`, yet the returned path `[0, 0]` contains a
duplicate vertex. The entry path's own duplicates survive untouched. -/
theorem extendPath_cycle_duplicate_counterexample :
    (([0, 0] : List Nat) ≠ [] ∧
        ∀ x ∈ ([0, 0] : List Nat), x ∈ ([0] : List Nat)) ∧
      (extendPath [0, 0] FORWARD selfLoopGraph [0] 0 10 99).fst = CYCLE ∧
      ¬ (extendPath [0, 0] FORWARD selfLoopGraph [0] 0 10 99).snd.fst.Nodup := by
  decide

/-- C4 (amended with a duplicate-free entry path): for every call to
`extendPath` with a non-empty path that contains no duplicate vertices and a
visited set that on entry contains every vertex of the path, if the returned
code is `CYCLE` or `EXTENDED_TO_CYCLE` then the path on return contains no
duplicate vertices. -/
theorem extendPath_cycle_result_nodup (path : List Nat) (dir : Direction)
    (g : Graph) (visited : List Nat) (trimLen maxLen undef : Nat)
    (hne : path ≠ []) (hnd : path.Nodup)
    (hsub : ∀ x ∈ path, x ∈ visited)
    (hcyc : (extendPath path dir g visited trimLen maxLen undef).fst = CYCLE ∨
      (extendPath path dir g visited trimLen maxLen undef).fst =
        EXTENDED_TO_CYCLE) :
    (extendPath path dir g visited trimLen maxLen undef).snd.fst.Nodup := by
  clear hcyc
  unfold extendPath
  by_cases hEarly : path.length ≠ NO_LIMIT ∧ maxLen ≤ path.length
  · simpa [hEarly] using hnd
  · simp only [if_neg hEarly]
    rcases hr : extendPathLoop dir g trimLen undef (maxLen - path.length)
        path visited with ⟨res, cyc, p1, v1⟩
    have hN := extendPathLoop_nodup dir g trimLen undef
      (maxLen - path.length) path visited hnd hsub
    rw [hr] at hN
    simp only at hN
    rw [congrArg Prod.fst (finishExtend_snd path.length dir res cyc p1 v1)]
    cases cyc with
    | false => simpa using hN
    | true => simpa using hN

/-- Witness for `extendPath_cycle_result_nodup`: the cycle 0 → 1 → 2 → 0
extended from `[0]` detects the repeat of 0, rolls it back, and returns
`EXTENDED_TO_CYCLE` with the duplicate-free path `[0, 1, 2]`. -/
theorem extendPath_cycle_result_nodup_witness :
    (([0] : List Nat) ≠ [] ∧ ([0] : List Nat).Nodup ∧
        (∀ x ∈ ([0] : List Nat), x ∈ ([0] : List Nat)) ∧
        (extendPath [0] FORWARD cycleGraph [0] 0 10 99).fst =
          EXTENDED_TO_CYCLE) ∧
      (extendPath [0] FORWARD cycleGraph [0] 0 10 99).snd.fst.Nodup :=
  ⟨⟨by decide, by decide, by decide, by decide⟩,
    extendPath_cycle_result_nodup [0] FORWARD cycleGraph [0] 0 10 99
      (by decide) (by decide) (by decide) (Or.inr (by decide))⟩
